import Mathlib

/-!
Verification of the spaced-repetition core of a flashcard study tool
(`src/app.js`).  The scheduler state of a card is held in the fields
`interval` (whole days), `repetitions` (a count), `easeFactor` (a
difficulty multiplier) and `nextReview` (an epoch-millisecond
timestamp).  JavaScript numbers are idealized as exact arithmetic:
timestamps and day counts as integers, the ease factor as a rational.
-/

/-- Number of milliseconds in a day, `24 * 60 * 60 * 1000` in the source. -/
def millisInDay : ℤ := 24 * 60 * 60 * 1000

/-- `Math.round` of JavaScript: round half toward positive infinity. -/
def jsRound (q : ℚ) : ℤ := ⌊q + 1 / 2⌋

/-- A flashcard, after the `@typedef Flashcard` block of `src/app.js`:
`id`, `question`, `answer`, `audioData` (a data URL or `null`),
`interval` (days between reviews), `repetitions`, `easeFactor` and
`nextReview` (timestamp in ms when due). -/
structure Card where
  id : String
  question : String
  answer : String
  audioData : Option String
  interval : ℤ
  repetitions : ℕ
  easeFactor : ℚ
  nextReview : ℤ
  deriving DecidableEq, Repr

/-- `createCard` of `src/app.js` (the scheduling fields): a fresh card has
`interval = 0`, `repetitions = 0`, `easeFactor = 2.5` and is due
immediately (`nextReview = Date.now()`).  The id generation and the form
reset are modelled by taking the id and the current time as arguments. -/
def createCard (id question answer : String) (audioData : Option String)
    (now : ℤ) : Card :=
  { id := id
    question := question
    answer := answer
    audioData := audioData
    interval := 0
    repetitions := 0
    easeFactor := 5 / 2
    nextReview := now }

/-- `processRating` of `src/app.js` (the SM-2 graded model), with the
wall-clock `Date.now()` taken as the argument `now`.  Quality is a number
in `[0, 5]`; a quality below 3 resets `repetitions` and `interval`,
otherwise the interval grows and the ease factor is adjusted by the SM-2
formula, clamped below at 1.3.  In both branches the card is finally
re-scheduled at `now + interval` days. -/
def processRating (card : Card) (quality : ℤ) (now : ℤ) : Card :=
  let card :=
    if quality < 3 then
      { card with repetitions := 0, interval := 1 }
    else
      let card :=
        if card.repetitions = 0 then
          { card with interval := 1 }
        else if card.repetitions = 1 then
          { card with interval := 6 }
        else
          { card with interval := jsRound ((card.interval : ℚ) * card.easeFactor) }
      let card := { card with repetitions := card.repetitions + 1 }
      { card with
        easeFactor :=
          max (13 / 10)
            (card.easeFactor +
              (1 / 10 - ((5 - quality : ℤ) : ℚ) *
                (8 / 100 + ((5 - quality : ℤ) : ℚ) * (2 / 100)))) }
  { card with nextReview := now + card.interval * millisInDay }

/-- `processRatingBinary` of `src/app.js` (the simplified easy/hard
model), with `Date.now()` taken as the argument `now`.  "Hard" resets the
learning cycle and lowers the ease factor by 0.15 (floored at 1.3);
"easy" grows the interval, increments `repetitions` and raises the ease
factor by 0.05 (capped at 2.5).  Both branches re-schedule the card at
`now + interval` days. -/
def processRatingBinary (card : Card) (isEasy : Bool) (now : ℤ) : Card :=
  let card :=
    if !isEasy then
      { card with
        repetitions := 0
        interval := 1
        easeFactor := max (13 / 10) (card.easeFactor - 15 / 100) }
    else
      let card :=
        if card.repetitions = 0 then
          { card with interval := 1 }
        else if card.repetitions = 1 then
          { card with interval := 3 }
        else
          { card with interval := jsRound ((card.interval : ℚ) * card.easeFactor) }
      let card := { card with repetitions := card.repetitions + 1 }
      { card with easeFactor := min (card.easeFactor + 5 / 100) (5 / 2) }
  { card with nextReview := now + card.interval * millisInDay }

/-- `skipOneDay` of `src/app.js` (the card mutation it performs): every
card's `nextReview` is moved back by one day. -/
def skipOneDay (cards : List Card) : List Card :=
  cards.map fun card => { card with nextReview := card.nextReview - millisInDay }

/-- The due subset computed in `showNextCard` of `src/app.js`:
`cards.filter((c) => c.nextReview <= Date.now())`. -/
def dueCards (cards : List Card) (now : ℤ) : List Card :=
  cards.filter fun c => c.nextReview ≤ now

/-- Stable insertion into a list sorted by `nextReview`: an element is
placed before the first strictly later-due element, so elements with
equal `nextReview` keep their relative order. -/
def insertByDue (c : Card) : List Card → List Card
  | [] => [c]
  | d :: ds => if c.nextReview ≤ d.nextReview then c :: d :: ds else d :: insertByDue c ds

/-- Stable sort by ascending `nextReview`, modelling the JavaScript
`sort((a, b) => a.nextReview - b.nextReview)` (`Array.prototype.sort` is
stable, so any stable sort by the same key computes the same list). -/
def sortByDue : List Card → List Card
  | [] => []
  | c :: cs => insertByDue c (sortByDue cs)

/-- The card selection of `showNextCard` in `src/app.js`: filter the due
cards, return the empty state (`none`) when there are none, otherwise the
head of the list sorted by ascending `nextReview`. -/
def showNextCard (cards : List Card) (now : ℤ) : Option Card :=
  (sortByDue (dueCards cards now)).head?

/-- The data-model invariant on the scheduling fields: the interval is
never negative, and is at least one day as soon as the card has been
reviewed at least once. -/
def cardInvariant (c : Card) : Prop :=
  0 ≤ c.interval ∧ (1 ≤ c.repetitions → 1 ≤ c.interval)

instance (c : Card) : Decidable (cardInvariant c) := by
  unfold cardInvariant
  infer_instance

/-- JSON values, the transfer format of export/import.  `JSON.stringify`
followed by `JSON.parse` is the identity on JSON-safe data (strings,
finite numbers, `null`, arrays, objects), so serialization is modelled at
the level of these values; numbers are idealized as rationals. -/
inductive Json where
  | str : String → Json
  | num : ℚ → Json
  | bool : Bool → Json
  | null : Json
  | arr : List Json → Json
  | obj : List (String × Json) → Json

/-- Reading a property of a parsed JSON object: the value under the first
binding of the key, if any. -/
def lookupField : List (String × Json) → String → Option Json
  | [], _ => none
  | (k, v) :: rest, key => if k = key then some v else lookupField rest key

/-- Reading a JSON value as a string. -/
def asString : Json → Option String
  | Json.str s => some s
  | _ => none

/-- Reading a JSON value as a string-or-null (the `audioData` field). -/
def asOptString : Json → Option (Option String)
  | Json.str s => some (some s)
  | Json.null => some none
  | _ => none

/-- Reading a JSON number as an integer (a day count or a timestamp). -/
def asInt : Json → Option ℤ
  | Json.num q => if q.den = 1 then some q.num else none
  | _ => none

/-- Reading a JSON number as a repetition count. -/
def asNat : Json → Option ℕ
  | Json.num q => if q.den = 1 ∧ 0 ≤ q.num then some q.num.toNat else none
  | _ => none

/-- Reading a JSON number as a rational (the ease factor). -/
def asRat : Json → Option ℚ
  | Json.num q => some q
  | _ => none

/-- `JSON.stringify` of one card: an object with the card's eight
properties, in the creation order of `createCard`. -/
def cardToJson (c : Card) : Json :=
  Json.obj
    [("id", Json.str c.id),
     ("question", Json.str c.question),
     ("answer", Json.str c.answer),
     ("audioData", match c.audioData with
       | some s => Json.str s
       | none => Json.null),
     ("interval", Json.num (c.interval : ℚ)),
     ("repetitions", Json.num (c.repetitions : ℚ)),
     ("easeFactor", Json.num c.easeFactor),
     ("nextReview", Json.num (c.nextReview : ℚ))]

/-- Reading a parsed JSON value back as a card, i.e. the field accesses
the program performs on an imported card object. -/
def jsonToCard (j : Json) : Option Card :=
  match j with
  | Json.obj fields => do
      let id ← lookupField fields "id" >>= asString
      let question ← lookupField fields "question" >>= asString
      let answer ← lookupField fields "answer" >>= asString
      let audioData ← lookupField fields "audioData" >>= asOptString
      let interval ← lookupField fields "interval" >>= asInt
      let repetitions ← lookupField fields "repetitions" >>= asNat
      let easeFactor ← lookupField fields "easeFactor" >>= asRat
      let nextReview ← lookupField fields "nextReview" >>= asInt
      pure
        { id := id
          question := question
          answer := answer
          audioData := audioData
          interval := interval
          repetitions := repetitions
          easeFactor := easeFactor
          nextReview := nextReview }
  | _ => none

/-- The export handler of `src/app.js`:
`JSON.stringify(cards, null, 2)`, as a JSON value. -/
def exportJson (cards : List Card) : Json :=
  Json.arr (cards.map cardToJson)

/-- Re-importing an exported payload as cards: the import handler accepts
the parsed value only when it is an array, and the program then reads the
elements back as cards (`jsonToCard`). -/
def importAsCards (j : Json) : Option (List Card) :=
  match j with
  | Json.arr elems => elems.mapM jsonToCard
  | _ => none

/-- The import handler of `src/app.js` at the level of the in-memory
collection: `payload` is the result of `JSON.parse` (`none` when parsing
threw).  A parse failure or a non-array value leaves the collection
unchanged (only an alert is shown); an array replaces it wholesale. -/
def applyImport (current : List Json) (payload : Option Json) : List Json :=
  match payload with
  | some (Json.arr imported) => imported
  | _ => current

/-- A concrete card used to instantiate universally quantified theorems. -/
def sampleCard : Card :=
  { id := "c1", question := "Q1", answer := "A1", audioData := none
    interval := 0, repetitions := 0, easeFactor := 5 / 2, nextReview := 0 }

/-- A concrete card due at time 50. -/
def cardA : Card :=
  { id := "c2", question := "Q2", answer := "A2", audioData := none
    interval := 1, repetitions := 1, easeFactor := 5 / 2, nextReview := 50 }

/-- A concrete card due at time 10. -/
def cardB : Card :=
  { id := "c3", question := "Q3", answer := "A3", audioData := some "d"
    interval := 2, repetitions := 2, easeFactor := 2, nextReview := 10 }

example :
    processRating (createCard "a" "q" "ans" none 0) 5 0 =
      { id := "a", question := "q", answer := "ans", audioData := none
        interval := 1, repetitions := 1, easeFactor := 26 / 10
        nextReview := millisInDay } := by
  simp [processRating, createCard, millisInDay]
  norm_num

example :
    processRatingBinary
      { id := "a", question := "q", answer := "ans", audioData := none
        interval := 6, repetitions := 2, easeFactor := 5 / 2, nextReview := 0 }
      true 0 =
      { id := "a", question := "q", answer := "ans", audioData := none
        interval := 15, repetitions := 3, easeFactor := 5 / 2
        nextReview := 15 * millisInDay } := by
  simp [processRatingBinary, jsRound, millisInDay]
  norm_num [Int.floor_eq_iff]

/-- C2: in both rating models, for any in-range rating, the updated card
is due exactly at the rating time plus its (new) interval in days, in the
reset branch as well as the success branch. -/
theorem dueAt_recomputed (c : Card) (q : ℤ) (b : Bool) (now : ℤ)
    (hq : 0 ≤ q ∧ q ≤ 5) :
    (processRating c q now).nextReview =
      now + (processRating c q now).interval * millisInDay ∧
    (processRatingBinary c b now).nextReview =
      now + (processRatingBinary c b now).interval * millisInDay :=
  ⟨rfl, rfl⟩

/-- Witness for C2 at a concrete card, quality and time. -/
theorem dueAt_recomputed_witness :
    (processRating sampleCard 5 0).nextReview =
      0 + (processRating sampleCard 5 0).interval * millisInDay ∧
    (processRatingBinary sampleCard true 0).nextReview =
      0 + (processRatingBinary sampleCard true 0).interval * millisInDay :=
  dueAt_recomputed sampleCard 5 true 0 (by decide)

/-- C4: rating a card "hard" in the binary model resets `repetitions` to
0 and `interval` to 1, and sets the ease factor to
`max(1.3, easeFactor - 0.15)`, whatever the card's prior state. -/
theorem binaryHard_resets (c : Card) (now : ℤ) :
    (processRatingBinary c false now).repetitions = 0 ∧
    (processRatingBinary c false now).interval = 1 ∧
    (processRatingBinary c false now).easeFactor =
      max (13 / 10) (c.easeFactor - 15 / 100) :=
  ⟨rfl, rfl, rfl⟩

/-- C5: in the graded model a quality below 3 resets `repetitions` to 0
and `interval` to 1, whatever the card's prior state. -/
theorem gradedFail_resets (c : Card) (q now : ℤ) (h : q < 3) :
    (processRating c q now).repetitions = 0 ∧
    (processRating c q now).interval = 1 := by
  unfold processRating
  simp [h]

/-- Witness for C5 at a concrete card and quality 0. -/
theorem gradedFail_resets_witness :
    (0 : ℤ) < 3 ∧
    (processRating sampleCard 0 7).repetitions = 0 ∧
    (processRating sampleCard 0 7).interval = 1 :=
  ⟨by decide, gradedFail_resets sampleCard 0 7 (by decide)⟩

/-- C10: the failed-recall reset of the graded model leaves the ease
factor exactly unchanged — it touches only `repetitions`, `interval` and
the due date — whereas the binary "hard" rating moves the ease factor to
`max(1.3, easeFactor - 0.15)`. -/
theorem gradedFail_keeps_easeFactor (c : Card) (q now : ℤ) (h : q < 3) :
    (processRating c q now).easeFactor = c.easeFactor ∧
    processRating c q now =
      { c with repetitions := 0, interval := 1
               nextReview := now + 1 * millisInDay } ∧
    (processRatingBinary c false now).easeFactor =
      max (13 / 10) (c.easeFactor - 15 / 100) := by
  refine ⟨?_, ?_, rfl⟩ <;>
    · unfold processRating
      simp [h]

/-- Witness for C10 at a concrete card and quality 2. -/
theorem gradedFail_keeps_easeFactor_witness :
    (2 : ℤ) < 3 ∧
    ((processRating sampleCard 2 9).easeFactor = sampleCard.easeFactor ∧
     processRating sampleCard 2 9 =
       { sampleCard with repetitions := 0, interval := 1
                         nextReview := 9 + 1 * millisInDay } ∧
     (processRatingBinary sampleCard false 9).easeFactor =
       max (13 / 10) (sampleCard.easeFactor - 15 / 100)) :=
  ⟨by decide, gradedFail_keeps_easeFactor sampleCard 2 9 (by decide)⟩

/-- C7: applying the bulk time-shift twice moves every card's due date
back by exactly two days and changes no other field. -/
theorem skipOneDay_twice (cards : List Card) :
    skipOneDay (skipOneDay cards) =
      cards.map fun c =>
        { c with nextReview := c.nextReview - 2 * millisInDay } := by
  simp only [skipOneDay, List.map_map]
  refine List.map_congr_left fun c _ => ?_
  simp only [Function.comp_apply, Card.mk.injEq, true_and]
  ring

/-- Inserting into a list never produces the empty list. -/
theorem insertByDue_ne_nil (c : Card) (l : List Card) :
    insertByDue c l ≠ [] := by
  cases l with
  | nil => simp [insertByDue]
  | cons d ds =>
    unfold insertByDue
    split <;> simp

/-- The stable sort produces the empty list only from the empty list. -/
theorem sortByDue_eq_nil_iff (l : List Card) : sortByDue l = [] ↔ l = [] := by
  cases l with
  | nil => simp [sortByDue]
  | cons c cs =>
    simp only [sortByDue]
    constructor
    · intro h
      exact absurd h (insertByDue_ne_nil _ _)
    · intro h
      cases h

/-- The head of the stable sort is the first element of the original list
attaining the minimal `nextReview`. -/
theorem sortByDue_head_first_min (l : List Card) (c : Card)
    (h : (sortByDue l).head? = some c) :
    (∀ d ∈ l, c.nextReview ≤ d.nextReview) ∧
    ∃ l₁ l₂, l = l₁ ++ c :: l₂ ∧ ∀ d ∈ l₁, c.nextReview < d.nextReview := by
  induction l generalizing c with
  | nil => simp [sortByDue] at h
  | cons x xs ih =>
    rw [sortByDue] at h
    cases hs : sortByDue xs with
    | nil =>
      have hxs : xs = [] := (sortByDue_eq_nil_iff xs).mp hs
      subst hxs
      rw [hs] at h
      simp only [insertByDue, List.head?_cons, Option.some.injEq] at h
      obtain rfl := h
      exact ⟨by simp, [], [], rfl, by simp⟩
    | cons y ys =>
      rw [hs] at h
      have ihy := ih y (by rw [hs]; rfl)
      obtain ⟨hymin, l₁, l₂, hdec, hlt⟩ := ihy
      unfold insertByDue at h
      by_cases hxy : x.nextReview ≤ y.nextReview
      · rw [if_pos hxy] at h
        simp only [List.head?_cons, Option.some.injEq] at h
        obtain rfl := h
        constructor
        · intro d hd
          rcases List.mem_cons.mp hd with rfl | hd'
          · exact le_refl _
          · exact le_trans hxy (hymin d hd')
        · exact ⟨[], xs, rfl, by simp⟩
      · rw [if_neg hxy] at h
        simp only [List.head?_cons, Option.some.injEq] at h
        obtain rfl := h
        rw [not_le] at hxy
        constructor
        · intro d hd
          rcases List.mem_cons.mp hd with rfl | hd'
          · exact le_of_lt hxy
          · exact hymin d hd'
        · refine ⟨x :: l₁, l₂, by rw [hdec, List.cons_append], ?_⟩
          intro d hd
          rcases List.mem_cons.mp hd with rfl | hd'
          · exact hxy
          · exact hlt d hd'

/-- C3: due-card selection returns the empty state exactly when no card
is due; otherwise it returns a due card of minimal `nextReview`, and
among the due cards attaining that minimum the one earliest in the
original collection order (the filter preserves that order). -/
theorem showNextCard_selects_earliest_due (cards : List Card) (now : ℤ) :
    (showNextCard cards now = none ↔ ∀ c ∈ cards, ¬c.nextReview ≤ now) ∧
    ∀ c, showNextCard cards now = some c →
      c ∈ cards ∧ c.nextReview ≤ now ∧
      (∀ d ∈ cards, d.nextReview ≤ now → c.nextReview ≤ d.nextReview) ∧
      ∃ l₁ l₂, dueCards cards now = l₁ ++ c :: l₂ ∧
        ∀ d ∈ l₁, c.nextReview < d.nextReview := by
  constructor
  · unfold showNextCard dueCards
    rw [List.head?_eq_none_iff, sortByDue_eq_nil_iff, List.filter_eq_nil_iff]
    simp
  · intro c hc
    unfold showNextCard at hc
    obtain ⟨hmin, l₁, l₂, hdec, hlt⟩ := sortByDue_head_first_min _ _ hc
    have hcdue : c ∈ dueCards cards now := by
      rw [hdec]
      simp
    have hcmem : c ∈ cards := List.mem_of_mem_filter hcdue
    have hcle : c.nextReview ≤ now := by
      have := List.of_mem_filter hcdue
      simpa using this
    refine ⟨hcmem, hcle, ?_, l₁, l₂, hdec, hlt⟩
    intro d hd hdle
    refine hmin d ?_
    unfold dueCards
    rw [List.mem_filter]
    exact ⟨hd, by simpa⟩

/-- Witness for C3 at a concrete collection and time. -/
theorem showNextCard_selects_earliest_due_witness :
    cardB ∈ [cardA, cardB] ∧ cardB.nextReview ≤ 100 ∧
    (∀ d ∈ [cardA, cardB], d.nextReview ≤ 100 →
      cardB.nextReview ≤ d.nextReview) ∧
    ∃ l₁ l₂, dueCards [cardA, cardB] 100 = l₁ ++ cardB :: l₂ ∧
      ∀ d ∈ l₁, cardB.nextReview < d.nextReview :=
  (showNextCard_selects_earliest_due [cardA, cardB] 100).2 cardB rfl

/-- C1: starting from an ease factor of at least 1.3, any in-range graded
rating keeps it at least 1.3; and starting moreover from an ease factor
of at most 2.5, either binary rating keeps it within `[1.3, 2.5]`. -/
theorem easeFactor_clamped (c : Card) (q : ℤ) (b : Bool) (now : ℤ)
    (h13 : 13 / 10 ≤ c.easeFactor) :
    (0 ≤ q ∧ q ≤ 5 → 13 / 10 ≤ (processRating c q now).easeFactor) ∧
    (c.easeFactor ≤ 5 / 2 →
      13 / 10 ≤ (processRatingBinary c b now).easeFactor ∧
      (processRatingBinary c b now).easeFactor ≤ 5 / 2) := by
  constructor
  · intro _
    by_cases hq3 : q < 3
    · have he : (processRating c q now).easeFactor = c.easeFactor := by
        unfold processRating
        simp [hq3]
      rw [he]
      exact h13
    · by_cases h0 : c.repetitions = 0
      · unfold processRating
        simp [hq3, h0]
      · by_cases h1 : c.repetitions = 1
        · unfold processRating
          simp [hq3, h0, h1]
        · unfold processRating
          simp [hq3, h0, h1]
  · intro h25
    cases b with
    | false =>
      exact ⟨le_max_left _ _, max_le (by norm_num) (by linarith)⟩
    | true =>
      have he : (processRatingBinary c true now).easeFactor =
          min (c.easeFactor + 5 / 100) (5 / 2) := by
        by_cases h0 : c.repetitions = 0
        · unfold processRatingBinary
          simp [h0]
        · by_cases h1 : c.repetitions = 1
          · unfold processRatingBinary
            simp [h0, h1]
          · unfold processRatingBinary
            simp [h0, h1]
      rw [he]
      exact ⟨le_min (by linarith) (by norm_num), min_le_right _ _⟩

/-- Witness for C1 at a concrete card, quality and boolean rating. -/
theorem easeFactor_clamped_witness :
    (13 / 10 : ℚ) ≤ sampleCard.easeFactor ∧
    ((0 ≤ (4 : ℤ) ∧ (4 : ℤ) ≤ 5 →
        13 / 10 ≤ (processRating sampleCard 4 0).easeFactor) ∧
     (sampleCard.easeFactor ≤ 5 / 2 →
        13 / 10 ≤ (processRatingBinary sampleCard true 0).easeFactor ∧
        (processRatingBinary sampleCard true 0).easeFactor ≤ 5 / 2)) :=
  ⟨by norm_num [sampleCard],
   easeFactor_clamped sampleCard 4 true 0 (by norm_num [sampleCard])⟩

/-- Rounding a rational of size at least one gives at least one. -/
theorem one_le_jsRound (x : ℚ) (hx : 1 ≤ x) : 1 ≤ jsRound x := by
  unfold jsRound
  refine Int.le_floor.mpr ?_
  push_cast
  linarith

/-- C6: the invariant "`interval ≥ 0`, and `interval ≥ 1` whenever
`repetitions ≥ 1`" holds for a newly created card and is preserved by any
in-range rating in either model (given an ease factor of at least 1.3)
and by the bulk time-shift. -/
theorem cardInvariant_preserved (c : Card) (q : ℤ) (b : Bool)
    (idv qv av : String) (ad : Option String) (now : ℤ) (cards : List Card)
    (hinv : cardInvariant c) (h13 : 13 / 10 ≤ c.easeFactor)
    (hq : 0 ≤ q ∧ q ≤ 5) :
    cardInvariant (createCard idv qv av ad now) ∧
    cardInvariant (processRating c q now) ∧
    cardInvariant (processRatingBinary c b now) ∧
    ((∀ d ∈ cards, cardInvariant d) →
      ∀ d ∈ skipOneDay cards, cardInvariant d) := by
  obtain ⟨hi0, hi1⟩ := hinv
  have hprod : ¬c.repetitions = 0 → ¬c.repetitions = 1 →
      1 ≤ jsRound ((c.interval : ℚ) * c.easeFactor) := by
    intro h0 h1
    have hr : 1 ≤ c.repetitions := by omega
    have hiv : 1 ≤ c.interval := hi1 hr
    have h1' : (1 : ℚ) ≤ (c.interval : ℚ) := by exact_mod_cast hiv
    refine one_le_jsRound _ ?_
    nlinarith
  refine ⟨by simp [cardInvariant, createCard], ?_, ?_, ?_⟩
  · by_cases hq3 : q < 3
    · unfold processRating cardInvariant
      simp [hq3]
    · by_cases h0 : c.repetitions = 0
      · unfold processRating cardInvariant
        simp [hq3, h0]
      · by_cases h1 : c.repetitions = 1
        · unfold processRating cardInvariant
          simp [hq3, h0, h1]
        · have hj := hprod h0 h1
          unfold processRating cardInvariant
          simp [hq3, h0, h1]
          omega
  · cases b with
    | false =>
      unfold processRatingBinary cardInvariant
      simp
    | true =>
      by_cases h0 : c.repetitions = 0
      · unfold processRatingBinary cardInvariant
        simp [h0]
      · by_cases h1 : c.repetitions = 1
        · unfold processRatingBinary cardInvariant
          simp [h0, h1]
        · have hj := hprod h0 h1
          unfold processRatingBinary cardInvariant
          simp [h0, h1]
          omega
  · intro hall d hd
    simp only [skipOneDay, List.mem_map] at hd
    obtain ⟨e, he, rfl⟩ := hd
    exact hall e he

/-- Serializing one card and reading its fields back restores the card. -/
theorem jsonToCard_cardToJson (c : Card) : jsonToCard (cardToJson c) = some c := by
  cases c with
  | mk cid cq ca cad civ crep cef cnr =>
    cases cad <;> rfl

/-- C8: exporting the collection to the JSON transfer format and
re-importing the result yields the same collection, field for field. -/
theorem export_import_roundtrip (cards : List Card) :
    importAsCards (exportJson cards) = some cards := by
  unfold importAsCards exportJson
  induction cards with
  | nil => rfl
  | cons c cs ihc =>
    simp only [List.map_cons, List.mapM_cons, jsonToCard_cardToJson,
      Option.bind_eq_bind, Option.some_bind] at ihc ⊢
    rw [ihc]
    rfl

/-- C9: the import handler leaves the in-memory collection untouched when
the payload failed to parse or parsed to a non-array, and replaces it
wholesale exactly when the payload parsed to an array. -/
theorem import_rejects_nonarray (current : List Json) (payload : Option Json) :
    ((∀ xs, payload ≠ some (Json.arr xs)) →
      applyImport current payload = current) ∧
    ∀ xs, payload = some (Json.arr xs) → applyImport current payload = xs := by
  constructor
  · intro h
    cases payload with
    | none => rfl
    | some j =>
      cases j with
      | arr xs => exact absurd rfl (h xs)
      | str s => rfl
      | num q => rfl
      | bool b => rfl
      | null => rfl
      | obj fs => rfl
  · intro xs h
    subst h
    rfl

/-- Witness for C9: a string payload is rejected and the collection kept;
an array payload replaces it. -/
theorem import_rejects_nonarray_witness :
    applyImport [Json.num 1] (some (Json.str "nope")) = [Json.num 1] ∧
    applyImport [Json.num 1] (some (Json.arr [Json.null])) = [Json.null] :=
  ⟨(import_rejects_nonarray [Json.num 1] (some (Json.str "nope"))).1
      (fun _ h => Json.noConfusion (Option.some.inj h)),
   (import_rejects_nonarray [Json.num 1] (some (Json.arr [Json.null]))).2
      [Json.null] rfl⟩

/-- Witness for C6 at a concrete card, rating and collection. -/
theorem cardInvariant_preserved_witness :
    cardInvariant sampleCard ∧ (13 / 10 : ℚ) ≤ sampleCard.easeFactor ∧
    (0 ≤ (4 : ℤ) ∧ (4 : ℤ) ≤ 5) ∧
    (cardInvariant (createCard "i" "qq" "aa" none 3) ∧
     cardInvariant (processRating sampleCard 4 3) ∧
     cardInvariant (processRatingBinary sampleCard false 3) ∧
     ((∀ d ∈ [sampleCard], cardInvariant d) →
       ∀ d ∈ skipOneDay [sampleCard], cardInvariant d)) :=
  ⟨by decide, by norm_num [sampleCard], by decide,
   cardInvariant_preserved sampleCard 4 false "i" "qq" "aa" none 3 [sampleCard]
     (by decide) (by norm_num [sampleCard]) (by decide)⟩
